import Mathlib

/-!
Verification of the Parallel Multi-GPU Transcription Pipeline and Batch
Orchestrator of the dashcam post-processing toolbox.

The definitions below are shallow embeddings of the Python sources:

* `scripts/gpu_pipeline.py`     — `TranscriptionJob`, `GPUTranscriptionWorker.process_job`,
  `GPUTranscriptionWorker._add_diarization`, `ParallelGPUPipeline.process_batch`
* `scripts/batch_orchestrator.py` — `_op_scan_files`, `_op_generate_hashes`,
  `_generate_completion_report`
* `scripts/optimized_transcribe_gpu.py` — `check_audio_level`
* `scripts/hardware_optimizer.py` — `_calculate_recommendations`
* `scripts/exporters.py`        — `BaseExporter._merge_segments`
* `PeopleNet/worker.py`         — `ContinuousGPUWorker.release_video`

External services (the ASR model, the diarization backend, ffmpeg, hashlib)
are treated as opaque: their results enter the embedding as explicit
arguments (`Except` values for fallible calls, an abstract digest function
for SHA-256).  Times and decibel levels are rationals; machine floats do not
occur in any property proved here.
-/

namespace Dashcam

/-! ## Word / segment / transcript data model (`gpu_pipeline.py`) -/

/-- A word-level timestamp entry, as built in `_transcribe_audio`
(`{'word': ..., 'start': ..., 'end': ..., 'probability': ...}`). -/
structure Word where
  word : String
  wstart : ℚ
  wend : ℚ
  probability : ℚ
  deriving Repr, DecidableEq

/-- A transcript segment dict as built in `_transcribe_audio` and later
mutated by `_add_diarization` (key `'speaker'`) and
`_add_confidence_scores` (key `'confidence'`).  Optional keys are `Option`s. -/
structure Segment where
  sid : Nat
  segStart : ℚ
  segEnd : ℚ
  text : String
  words : List Word
  speaker : Option String := none
  confidence : Option ℚ := none
  deriving Repr, DecidableEq

/-- Diarization metadata attached to the result dict by `_add_diarization`:
on success the speaker census, on a caught backend exception the error
message. -/
inductive DiarizationMeta where
  | ok (numSpeakers : Nat) (speakers : List String)
  | err (msg : String)
  deriving Repr, DecidableEq

/-- The result dict returned by `_transcribe_audio` / `process_job`. -/
structure TranscriptionResult where
  segments : List Segment
  language : String
  duration : ℚ
  diarization : Option DiarizationMeta := none
  deriving Repr, DecidableEq

/-- `TranscriptionJob` dataclass of `gpu_pipeline.py` (timing fields, which
hold wall-clock readings, are not modelled). -/
structure TranscriptionJob where
  jobId : String
  inputPath : String
  outputPath : String
  priority : Nat
  gpuId : Option Nat := none
  status : String := "pending"
  result : Option TranscriptionResult := none
  error : Option String := none
  deriving Repr, DecidableEq

/-! ## Round-robin assignment counting (`ParallelGPUPipeline.process_batch`)

`process_batch` submits job `i` to `self.workers[i % len(self.workers)]`.
`assignedCount N W w` counts how many of the inputs `0, ..., N-1` are
submitted to worker `w`. -/

/-- Number of inputs among `0..N-1` that round-robin assigns to worker `w`
out of `W` workers (`i % len(self.workers)` in `process_batch`). -/
def assignedCount (N W w : Nat) : Nat :=
  ((List.range N).filter (fun i => i % W == w)).length

theorem assignedCount_succ (N W w : Nat) :
    assignedCount (N + 1) W w =
      assignedCount N W w + (if N % W == w then 1 else 0) := by
  simp only [assignedCount, List.range_succ, List.filter_append, List.length_append]
  by_cases h : N % W == w <;> simp [h]

theorem assignedCount_closed (N W w : Nat) (hw : w < W) :
    assignedCount N W w = N / W + (if w < N % W then 1 else 0) := by
  induction N with
  | zero => simp [assignedCount]
  | succ N ih =>
    rw [assignedCount_succ, ih]
    have hW : 0 < W := Nat.lt_of_le_of_lt (Nat.zero_le w) hw
    have hmod : N % W < W := Nat.mod_lt _ hW
    rcases Nat.lt_or_ge (N % W + 1) W with hlt | hge
    · -- the remainder does not wrap: (N+1) % W = N % W + 1, (N+1) / W = N / W
      have hdiv : (N + 1) / W = N / W := by
        conv_lhs => rw [← Nat.div_add_mod N W]
        rw [Nat.add_assoc, Nat.mul_add_div hW, Nat.div_eq_of_lt hlt, Nat.add_zero]
      have hm : (N + 1) % W = N % W + 1 := by
        conv_lhs => rw [← Nat.div_add_mod N W]
        rw [Nat.add_assoc, Nat.mul_add_mod, Nat.mod_eq_of_lt hlt]
      rw [hdiv, hm]
      by_cases hew : N % W = w
      · simp [hew, Nat.lt_irrefl, Nat.lt_succ_self]
      · have : (N % W == w) = false := by simp [hew]
        rw [this]
        by_cases hlt2 : w < N % W
        · have : w < N % W + 1 := Nat.lt_succ_of_lt hlt2
          simp [hlt2, this]
        · have : ¬ w < N % W + 1 := by
            intro hc
            exact hew (Nat.le_antisymm (Nat.lt_succ_iff.mp hc) (Nat.le_of_not_lt hlt2)).symm
          simp [hlt2, this]
    · -- the remainder wraps: N % W = W - 1, (N+1) % W = 0, (N+1) / W = N / W + 1
      have heq : N % W + 1 = W := Nat.le_antisymm (Nat.succ_le_of_lt hmod) hge
      have hNsucc : N + 1 = W * (N / W + 1) := by
        conv_lhs => rw [← Nat.div_add_mod N W]
        rw [Nat.add_assoc, heq, Nat.mul_add, Nat.mul_one]
      have hdiv : (N + 1) / W = N / W + 1 := by
        rw [hNsucc, Nat.mul_div_cancel_left _ hW]
      have hm : (N + 1) % W = 0 := by
        rw [hNsucc, Nat.mul_mod_right]
      rw [hdiv, hm]
      by_cases hew : N % W = w
      · have hlt2 : ¬ w < N % W := by rw [hew]; exact Nat.lt_irrefl w
        simp [hew, hlt2, Nat.add_assoc]
      · have hbeq : (N % W == w) = false := by simp [hew]
        have hlt2 : w < N % W := by
          rcases Nat.lt_or_ge w (N % W) with h | h
          · exact h
          · exact absurd (Nat.le_antisymm h (by omega)) hew
        simp [hbeq, hlt2]

theorem assignedCount_fair (N W w₁ w₂ : Nat) (h₁ : w₁ < W) (h₂ : w₂ < W) :
    assignedCount N W w₁ ≤ assignedCount N W w₂ + 1 := by
  rw [assignedCount_closed N W w₁ h₁, assignedCount_closed N W w₂ h₂]
  split_ifs <;> omega

/-! ## String and path helpers

Python `str.startswith` / `str.endswith`, `os.path.basename` and
`pathlib.Path.stem` are library operations; they are embedded here over the
character lists of strings (the byte-position functions of core `String`
do not reduce in the kernel, so concrete instances could not be checked
with them). -/

/-- `pre` is an initial run of `s` (character-list version). -/
def listBeginsWith (pre s : List Char) : Bool :=
  match pre, s with
  | [], _ => true
  | _ :: _, [] => false
  | p :: ps, c :: cs => p == c && listBeginsWith ps cs

/-- Python `s.startswith(pre)`. -/
def strBeginsWith (s pre : String) : Bool :=
  listBeginsWith pre.data s.data

/-- Python `s.endswith(suf)`. -/
def strEndsWith (s suf : String) : Bool :=
  listBeginsWith suf.data.reverse s.data.reverse

/-- Split a character list on a separator character; mirrors Python
`str.split(sep)` on every component boundary (`splitOnChar '.' "a.b.c"`
gives `["a", "b", "c"]`). -/
def splitOnChar (sep : Char) : List Char → List (List Char)
  | [] => [[]]
  | c :: cs =>
    match splitOnChar sep cs with
    | [] => [[c]]
    | h :: t => if c == sep then [] :: h :: t else (c :: h) :: t

/-- Join character lists with a separator character (inverse of
`splitOnChar`, used for the multi-dot stem case). -/
def joinWithChar (sep : Char) : List (List Char) → List Char
  | [] => []
  | [x] => x
  | x :: xs => x ++ sep :: joinWithChar sep xs

/-- `os.path.basename`: the final `/`-separated path component. -/
def basename (p : String) : String :=
  String.mk ((splitOnChar ('/') p.data).getLastD p.data)

/-- `pathlib.Path.stem`: the final path component without its last suffix
(`transcript.json` ↦ `transcript`, `a.b.c` ↦ `a.b`, `noext` ↦ `noext`). -/
def stem (p : String) : String :=
  let base := (splitOnChar ('/') p.data).getLastD p.data
  let parts := splitOnChar ('.') base
  if parts.length ≤ 1 then String.mk base
  else String.mk (joinWithChar ('.') parts.dropLast)

/-- Zero-padded rendering of `i` as in the Python format `f"{i:04d}"`. -/
def pad4 (i : Nat) : String :=
  let s := toString i
  if s.length < 4 then String.mk (List.replicate (4 - s.length) '0') ++ s
  else s

/-! ## `ParallelGPUPipeline.process_batch` and `GPUTranscriptionWorker.process_job`

The ASR call (`self.model.transcribe`) and the diarization backend
(`self.diarization_pipeline(...)`) are opaque external services; their
outcomes enter the embedding as `Except` arguments, indexed per job.  A
`.error e` value stands for the backend raising an exception whose string
form is `e`. -/

/-- The output of `_transcribe_audio` when the ASR call succeeds: the
collected segment list plus `info.language` / `info.duration`. -/
structure TranscribeOut where
  segments : List Segment
  language : String
  duration : ℚ
  deriving Repr, DecidableEq

/-- A diarization turn as yielded by `diarization.itertracks(yield_label=True)`:
`(turn.start, turn.end, speaker)`.  `itertracks` yields turns in
chronological order. -/
structure Turn where
  tstart : ℚ
  tend : ℚ
  speaker : String
  deriving Repr, DecidableEq

/-- Length of the intersection of a turn with the segment interval
`[s, e]` (`turn.intersection(segment_time).duration`). -/
def overlapLen (t : Turn) (s e : ℚ) : ℚ :=
  min t.tend e - max t.tstart s

/-- `turn.overlaps(segment_time)`: the turn and the segment intersect in an
interval of positive length. -/
def overlapsSeg (t : Turn) (s e : ℚ) : Bool :=
  decide (0 < overlapLen t s e)

/-- The first element of `a :: l`, in list order, whose `f`-value is
maximal: a left fold that replaces the running best only on a strict
increase.  This is the value of `speakers[0]` after the stable descending
sort `speakers.sort(key=lambda x: x[1], reverse=True)` in
`_add_diarization`. -/
def pickBy (f : α → ℚ) (a : α) (l : List α) : α :=
  l.foldl (fun best x => if f best < f x then x else best) a

/-- The turn the loop body of `_add_diarization` selects for one segment:
the code builds `speakers = [(speaker, overlap_duration), ...]` in
`itertracks` order, sorts it descending by duration (Python's sort is
stable) and takes `speakers[0]`; this is the first turn, in list order,
whose overlap duration is maximal.  Returns `none` when no turn overlaps. -/
def bestTurn (turns : List Turn) (s e : ℚ) : Option Turn :=
  match turns.filter (fun t => overlapsSeg t s e) with
  | [] => none
  | t :: rest => some (pickBy (fun t => overlapLen t s e) t rest)

/-- The per-segment mutation of the success path of `_add_diarization`:
`segment['speaker'] = speakers[0][0]` when some turn overlaps, else
`segment['speaker'] = 'Unknown'`. -/
def labelSegment (turns : List Turn) (seg : Segment) : Segment :=
  match bestTurn turns seg.segStart seg.segEnd with
  | some t => { seg with speaker := some t.speaker }
  | none => { seg with speaker := some "Unknown" }

/-- `GPUTranscriptionWorker._add_diarization`: on a successful backend call,
label every segment and record the speaker census; on a caught backend
exception, leave the segments untouched and record only the error string. -/
def addDiarization (diarOut : Except String (List Turn))
    (result : TranscriptionResult) : TranscriptionResult :=
  match diarOut with
  | .ok turns =>
      { result with
        segments := result.segments.map (labelSegment turns)
        diarization := some (.ok
          (turns.map (·.speaker)).dedup.length (turns.map (·.speaker)).dedup) }
  | .error e =>
      { result with diarization := some (.err e) }

/-- Mean of the word probabilities of a segment (`np.mean(probs)`). -/
def meanProb (ws : List Word) : ℚ :=
  (ws.map (·.probability)).sum / ws.length

/-- `GPUTranscriptionWorker._add_confidence_scores`: segment confidence is
the mean word probability when words are present, else the constant 0.7. -/
def addConfidence (result : TranscriptionResult) : TranscriptionResult :=
  { result with
    segments := result.segments.map (fun seg =>
      { seg with
        confidence := some (if seg.words.isEmpty then (7 : ℚ) / 10 else meanProb seg.words) }) }

/-- `GPUTranscriptionWorker.process_job` on worker `gpu`: mark the job
`processing`, run the try-block (transcription, optional diarization,
confidence scores), and catch any exception of the try-block, recording
`error` and `status='failed'`.  `diarEnabled` models
`self.diarization_pipeline and job.options.get('diarization', True)`. -/
def processJob (gpu : Nat) (asrOut : Except String TranscribeOut)
    (diarEnabled : Bool) (diarOut : Except String (List Turn))
    (job : TranscriptionJob) : TranscriptionJob :=
  let job := { job with status := "processing", gpuId := some gpu }
  match asrOut with
  | .error e => { job with status := "failed", error := some e }
  | .ok t =>
      let r0 : TranscriptionResult :=
        { segments := t.segments, language := t.language, duration := t.duration }
      let r1 := if diarEnabled then addDiarization diarOut r0 else r0
      let r2 := addConfidence r1
      { job with status := "completed", result := some r2 }

/-- Job construction in `process_batch`:
`TranscriptionJob(job_id=f"job_{i:04d}_{input_file.stem}", input_path=input_file,
output_path=output_dir / input_file.stem / 'transcript', options=..., priority=i)`. -/
def mkJob (outputDir : String) (i : Nat) (inputFile : String) : TranscriptionJob :=
  { jobId := "job_" ++ pad4 i ++ "_" ++ stem inputFile
    inputPath := inputFile
    outputPath := outputDir ++ "/" ++ stem inputFile ++ "/transcript"
    priority := i }

/-- `ParallelGPUPipeline.process_batch`: build one job per input, submit job
`i` to `self.workers[i % len(self.workers)]` (`W` workers), and collect the
futures in submission order.  `process_job` catches every exception of its
try-block, so every future resolves to the processed job. -/
def processBatch (W : Nat) (asrOuts : Nat → Except String TranscribeOut)
    (diarEnabled : Bool) (diarOuts : Nat → Except String (List Turn))
    (inputFiles : List String) (outputDir : String) : List TranscriptionJob :=
  inputFiles.enum.map (fun p =>
    processJob (p.1 % W) (asrOuts p.1) diarEnabled (diarOuts p.1)
      (mkJob outputDir p.1 p.2))

theorem processJob_gpuId (gpu : Nat) (asrOut : Except String TranscribeOut)
    (diarEnabled : Bool) (diarOut : Except String (List Turn))
    (job : TranscriptionJob) :
    (processJob gpu asrOut diarEnabled diarOut job).gpuId = some gpu := by
  cases asrOut <;> simp [processJob]

theorem processJob_inputPath (gpu : Nat) (asrOut : Except String TranscribeOut)
    (diarEnabled : Bool) (diarOut : Except String (List Turn))
    (job : TranscriptionJob) :
    (processJob gpu asrOut diarEnabled diarOut job).inputPath = job.inputPath := by
  cases asrOut <;> simp [processJob]

/-- C1: `process_batch` returns a list of jobs index-aligned with the
inputs — the i-th returned job was built from `inputs[i]` — regardless of
completion order (futures are collected in submission order); a job whose
processing raised an exception appears in the returned list with
`status = 'failed'` and `error` populated; and no exception propagates out
of `process_batch` (the embedding is a total function: `process_job`
catches every exception of its try-block). -/
theorem processBatch_aligned (W : Nat) (asrOuts : Nat → Except String TranscribeOut)
    (diarEnabled : Bool) (diarOuts : Nat → Except String (List Turn))
    (inputFiles : List String) (outputDir : String) :
    (processBatch W asrOuts diarEnabled diarOuts inputFiles outputDir).length
      = inputFiles.length ∧
    ∀ i (hi : i < inputFiles.length)
      (hj : i < (processBatch W asrOuts diarEnabled diarOuts inputFiles outputDir).length),
      ((processBatch W asrOuts diarEnabled diarOuts inputFiles outputDir)[i]).inputPath
          = inputFiles[i] ∧
      (∀ e, asrOuts i = .error e →
        ((processBatch W asrOuts diarEnabled diarOuts inputFiles outputDir)[i]).status
            = "failed" ∧
        ((processBatch W asrOuts diarEnabled diarOuts inputFiles outputDir)[i]).error
            = some e) := by
  constructor
  · simp [processBatch]
  · intro i hi hj
    have hget : (processBatch W asrOuts diarEnabled diarOuts inputFiles outputDir)[i]
        = processJob (i % W) (asrOuts i) diarEnabled (diarOuts i)
            (mkJob outputDir i inputFiles[i]) := by
      simp [processBatch]
    constructor
    · rw [hget, processJob_inputPath]
      rfl
    · intro e he
      rw [hget, he]
      simp [processJob]

theorem processBatch_aligned_witness :
    (0 : Nat) < ["F001/a.mp4", "F002/b.mp4"].length ∧
    ((processBatch 1 (fun i => if i = 0 then .ok ⟨[], "en", 10⟩ else .error "boom")
        false (fun _ => .ok []) ["F001/a.mp4", "F002/b.mp4"] "outputs")[0]).inputPath
      = "F001/a.mp4" := by
  have h := processBatch_aligned 1
    (fun i => if i = 0 then .ok ⟨[], "en", 10⟩ else .error "boom")
    false (fun _ => .ok []) ["F001/a.mp4", "F002/b.mp4"] "outputs"
  refine ⟨by decide, ?_⟩
  exact (h.2 0 (by decide) (by rw [h.1]; decide)).1

/-- Count of returned jobs that ran on GPU `w` (`job.gpu_id == w`). -/
def countGpu (jobs : List TranscriptionJob) (w : Nat) : Nat :=
  (jobs.filter (fun j => j.gpuId == some w)).length

theorem countGpu_processBatch (W : Nat) (asrOuts : Nat → Except String TranscribeOut)
    (diarEnabled : Bool) (diarOuts : Nat → Except String (List Turn))
    (inputFiles : List String) (outputDir : String) (w : Nat) :
    countGpu (processBatch W asrOuts diarEnabled diarOuts inputFiles outputDir) w
      = assignedCount inputFiles.length W w := by
  simp only [countGpu, processBatch, assignedCount, ← List.countP_eq_length_filter,
    List.countP_map]
  have hcongr : List.countP
      ((fun j => j.gpuId == some w) ∘ fun p : Nat × String =>
        processJob (p.1 % W) (asrOuts p.1) diarEnabled (diarOuts p.1)
          (mkJob outputDir p.1 p.2)) inputFiles.enum
      = List.countP (fun p : Nat × String => p.1 % W == w) inputFiles.enum := by
    refine List.countP_congr ?_
    intro p _
    simp [Function.comp, processJob_gpuId]
  rw [hcongr]
  have henum : List.countP (fun p : Nat × String => p.1 % W == w) inputFiles.enum
      = List.countP (fun i : Nat => i % W == w) (inputFiles.enum.map Prod.fst) := by
    rw [List.countP_map]
    rfl
  rw [henum, List.enum_map_fst]

/-- C2: in `process_batch` with `N` inputs and `W` workers, input `i` is
submitted to worker `i mod W` (round-robin), so the numbers of jobs
assigned to any two workers differ by at most 1. -/
theorem processBatch_fair (W : Nat) (asrOuts : Nat → Except String TranscribeOut)
    (diarEnabled : Bool) (diarOuts : Nat → Except String (List Turn))
    (inputFiles : List String) (outputDir : String) (w₁ w₂ : Nat)
    (h₁ : w₁ < W) (h₂ : w₂ < W) :
    (∀ i (hj : i < (processBatch W asrOuts diarEnabled diarOuts inputFiles outputDir).length),
      ((processBatch W asrOuts diarEnabled diarOuts inputFiles outputDir)[i]).gpuId
        = some (i % W)) ∧
    countGpu (processBatch W asrOuts diarEnabled diarOuts inputFiles outputDir) w₁
      ≤ countGpu (processBatch W asrOuts diarEnabled diarOuts inputFiles outputDir) w₂ + 1 := by
  constructor
  · intro i hj
    have hi : i < inputFiles.length := by
      simpa [processBatch] using hj
    have hget : (processBatch W asrOuts diarEnabled diarOuts inputFiles outputDir)[i]
        = processJob (i % W) (asrOuts i) diarEnabled (diarOuts i)
            (mkJob outputDir i inputFiles[i]) := by
      simp [processBatch]
    rw [hget, processJob_gpuId]
  · rw [countGpu_processBatch, countGpu_processBatch]
    exact assignedCount_fair _ _ _ _ h₁ h₂

theorem processBatch_fair_witness :
    (0 : Nat) < 2 ∧ (1 : Nat) < 2 ∧
    countGpu (processBatch 2 (fun _ => .ok ⟨[], "en", 10⟩) false (fun _ => .ok [])
        ["a.mp4", "b.mp4", "c.mp4"] "outputs") 0
      ≤ countGpu (processBatch 2 (fun _ => .ok ⟨[], "en", 10⟩) false (fun _ => .ok [])
        ["a.mp4", "b.mp4", "c.mp4"] "outputs") 1 + 1 := by
  refine ⟨by decide, by decide, ?_⟩
  exact (processBatch_fair 2 (fun _ => .ok ⟨[], "en", 10⟩) false (fun _ => .ok [])
    ["a.mp4", "b.mp4", "c.mp4"] "outputs" 0 1 (by decide) (by decide)).2

theorem pickBy_cons {α : Type} (f : α → ℚ) (a b : α) (l : List α) :
    pickBy f a (b :: l) = pickBy f (if f a < f b then b else a) l := rfl

theorem pickBy_mem {α : Type} (f : α → ℚ) (a : α) (l : List α) :
    pickBy f a l ∈ a :: l := by
  induction l generalizing a with
  | nil => exact List.mem_cons_self a []
  | cons b l ih =>
    rw [pickBy_cons]
    by_cases h : f a < f b
    · rw [if_pos h]
      exact List.mem_cons_of_mem a (ih b)
    · rw [if_neg h]
      rcases List.mem_cons.mp (ih a) with h1 | h1
      · rw [h1]
        exact List.mem_cons_self a (b :: l)
      · exact List.mem_cons_of_mem a (List.mem_cons_of_mem b h1)

theorem le_pickBy {α : Type} (f : α → ℚ) (a : α) (l : List α) :
    ∀ x ∈ a :: l, f x ≤ f (pickBy f a l) := by
  induction l generalizing a with
  | nil =>
    intro x hx
    rcases List.mem_cons.mp hx with rfl | hx'
    · exact le_refl _
    · cases hx'
  | cons b l ih =>
    intro x hx
    rw [pickBy_cons]
    by_cases h : f a < f b
    · rw [if_pos h]
      rcases List.mem_cons.mp hx with rfl | hx'
      · exact le_of_lt (lt_of_lt_of_le h (ih b b (List.mem_cons_self b l)))
      · exact ih b x hx'
    · rw [if_neg h]
      rcases List.mem_cons.mp hx with rfl | hx'
      · exact ih x x (List.mem_cons_self x l)
      · rcases List.mem_cons.mp hx' with rfl | hx''
        · exact le_trans (le_of_not_lt h) (ih a a (List.mem_cons_self a l))
        · exact ih a x (List.mem_cons_of_mem a hx'')

theorem pickBy_eq_of_le {α : Type} (f : α → ℚ) (a : α) (l : List α)
    (hle : f (pickBy f a l) ≤ f a) : pickBy f a l = a := by
  induction l generalizing a with
  | nil => rfl
  | cons b l ih =>
    rw [pickBy_cons] at hle ⊢
    by_cases h : f a < f b
    · rw [if_pos h] at hle ⊢
      have hb : f b ≤ f (pickBy f b l) := le_pickBy f b l b (List.mem_cons_self b l)
      exact absurd hle (not_le.mpr (lt_of_lt_of_le h hb))
    · rw [if_neg h] at hle ⊢
      exact ih a hle

theorem pickBy_first {α : Type} (f g : α → ℚ) (a : α) (l : List α)
    (hsort : List.Pairwise (fun u v => g u ≤ g v) (a :: l)) :
    ∀ x ∈ a :: l, f (pickBy f a l) ≤ f x → g (pickBy f a l) ≤ g x := by
  induction l generalizing a with
  | nil =>
    intro x hx hle
    rcases List.mem_cons.mp hx with rfl | hx'
    · exact le_refl _
    · cases hx'
  | cons b l ih =>
    intro x hx hle
    rw [pickBy_cons] at hle ⊢
    by_cases h : f a < f b
    · rw [if_pos h] at hle ⊢
      have htail : List.Pairwise (fun u v => g u ≤ g v) (b :: l) :=
        (List.pairwise_cons.mp hsort).2
      rcases List.mem_cons.mp hx with rfl | hx'
      · have hb : f x < f (pickBy f b l) :=
          lt_of_lt_of_le h (le_pickBy f b l b (List.mem_cons_self b l))
        exact absurd hle (not_le.mpr hb)
      · exact ih b htail x hx' hle
    · rw [if_neg h] at hle ⊢
      have hsub : (a :: l).Sublist (a :: b :: l) :=
        (List.sublist_cons_self b l).cons₂ a
      have hal : List.Pairwise (fun u v => g u ≤ g v) (a :: l) := hsort.sublist hsub
      rcases List.mem_cons.mp hx with rfl | hx'
      · exact ih x hal x (List.mem_cons_self x l) hle
      · rcases List.mem_cons.mp hx' with rfl | hx''
        · have heq : pickBy f a l = a :=
            pickBy_eq_of_le f a l (le_trans hle (le_of_not_lt h))
          rw [heq]
          exact (List.pairwise_cons.mp hsort).1 x (List.mem_cons_self x l)
        · exact ih a hal x (List.mem_cons_of_mem a hx'') hle

theorem labelSegment_of_no_overlap (turns : List Turn) (seg : Segment)
    (h : ∀ t ∈ turns, overlapsSeg t seg.segStart seg.segEnd = false) :
    (labelSegment turns seg).speaker = some "Unknown" := by
  have hf : turns.filter (fun t => overlapsSeg t seg.segStart seg.segEnd) = [] := by
    rw [List.filter_eq_nil_iff]
    intro t ht
    simp [h t ht]
  simp [labelSegment, bestTurn, hf]

theorem labelSegment_of_overlap (turns : List Turn) (seg : Segment)
    (hsort : List.Pairwise (fun u v : Turn => u.tstart ≤ v.tstart) turns)
    (t0 : Turn) (ht0 : t0 ∈ turns)
    (hov : overlapsSeg t0 seg.segStart seg.segEnd = true) :
    ∃ tb ∈ turns, overlapsSeg tb seg.segStart seg.segEnd = true ∧
      (labelSegment turns seg).speaker = some tb.speaker ∧
      (∀ u ∈ turns, overlapsSeg u seg.segStart seg.segEnd = true →
        overlapLen u seg.segStart seg.segEnd ≤ overlapLen tb seg.segStart seg.segEnd) ∧
      (∀ u ∈ turns, overlapsSeg u seg.segStart seg.segEnd = true →
        overlapLen u seg.segStart seg.segEnd = overlapLen tb seg.segStart seg.segEnd →
        tb.tstart ≤ u.tstart) := by
  have hmem : t0 ∈ turns.filter (fun t => overlapsSeg t seg.segStart seg.segEnd) :=
    List.mem_filter.mpr ⟨ht0, hov⟩
  rcases hl : turns.filter (fun t => overlapsSeg t seg.segStart seg.segEnd) with
    _ | ⟨a, rest⟩
  · rw [hl] at hmem
    cases hmem
  · set f : Turn → ℚ := fun t => overlapLen t seg.segStart seg.segEnd with hfdef
    refine ⟨pickBy f a rest, ?_, ?_, ?_, ?_, ?_⟩
    · have : pickBy f a rest ∈ a :: rest := pickBy_mem f a rest
      rw [← hl] at this
      exact (List.mem_filter.mp this).1
    · have : pickBy f a rest ∈ a :: rest := pickBy_mem f a rest
      rw [← hl] at this
      exact (List.mem_filter.mp this).2
    · simp [labelSegment, bestTurn, hl]
    · intro u hu huov
      have : u ∈ a :: rest := by
        rw [← hl]
        exact List.mem_filter.mpr ⟨hu, huov⟩
      exact le_pickBy f a rest u this
    · intro u hu huov hequ
      have hmu : u ∈ a :: rest := by
        rw [← hl]
        exact List.mem_filter.mpr ⟨hu, huov⟩
      have hps : List.Pairwise (fun u v : Turn => u.tstart ≤ v.tstart) (a :: rest) := by
        rw [← hl]
        exact hsort.filter _
      exact pickBy_first f (fun t => t.tstart) a rest hps u hmu (le_of_eq hequ.symm)

/-- C4 (amended): when diarization is enabled and the backend call succeeds,
every transcript segment is assigned the speaker label of a diarization
turn with maximum time-overlap, ties resolved by earliest turn start-time
(turns are given in `itertracks` chronological order); a segment overlapped
by no turn is labeled `Unknown`.  When the backend raises, the job is not
marked failed (the exception is caught inside `_add_diarization`, so
`process_job` still completes) and the error is recorded in the result
metadata, but the segments are left without any speaker label — they are
not relabeled `Unknown`. -/
theorem addDiarization_spec (turns : List Turn) (r : TranscriptionResult)
    (hsort : List.Pairwise (fun u v : Turn => u.tstart ≤ v.tstart) turns) :
    ((addDiarization (.ok turns) r).segments.length = r.segments.length ∧
     ∀ i (hi : i < r.segments.length)
       (hi' : i < (addDiarization (.ok turns) r).segments.length),
       ((∀ t ∈ turns,
           overlapsSeg t (r.segments[i]).segStart (r.segments[i]).segEnd = false) →
         ((addDiarization (.ok turns) r).segments[i]).speaker = some "Unknown") ∧
       (∀ t0 ∈ turns,
         overlapsSeg t0 (r.segments[i]).segStart (r.segments[i]).segEnd = true →
         ∃ tb ∈ turns,
           overlapsSeg tb (r.segments[i]).segStart (r.segments[i]).segEnd = true ∧
           ((addDiarization (.ok turns) r).segments[i]).speaker = some tb.speaker ∧
           (∀ u ∈ turns,
             overlapsSeg u (r.segments[i]).segStart (r.segments[i]).segEnd = true →
             overlapLen u (r.segments[i]).segStart (r.segments[i]).segEnd
               ≤ overlapLen tb (r.segments[i]).segStart (r.segments[i]).segEnd) ∧
           (∀ u ∈ turns,
             overlapsSeg u (r.segments[i]).segStart (r.segments[i]).segEnd = true →
             overlapLen u (r.segments[i]).segStart (r.segments[i]).segEnd
               = overlapLen tb (r.segments[i]).segStart (r.segments[i]).segEnd →
             tb.tstart ≤ u.tstart))) ∧
    (∀ e, (addDiarization (.error e) r).segments = r.segments ∧
      (addDiarization (.error e) r).diarization = some (.err e)) ∧
    (∀ gpu t diarOut job,
      (processJob gpu (.ok t) true diarOut job).status = "completed") := by
  refine ⟨⟨?_, ?_⟩, ?_, ?_⟩
  · simp [addDiarization]
  · intro i hi hi'
    have hget : (addDiarization (.ok turns) r).segments[i]
        = labelSegment turns (r.segments[i]) := by
      simp [addDiarization]
    constructor
    · intro h
      rw [hget]
      exact labelSegment_of_no_overlap turns _ h
    · intro t0 ht0 hov
      rw [hget]
      exact labelSegment_of_overlap turns _ hsort t0 ht0 hov
  · intro e
    exact ⟨rfl, rfl⟩
  · intro gpu t diarOut job
    simp [processJob]

theorem addDiarization_spec_witness :
    List.Pairwise (fun u v : Turn => u.tstart ≤ v.tstart)
      [⟨0, 2, "SPK_00"⟩, ⟨2, 4, "SPK_01"⟩] ∧
    (addDiarization (.error "backend boom")
      { segments := [], language := "en", duration := 1 }).diarization
      = some (.err "backend boom") := by
  refine ⟨by decide, ?_⟩
  exact ((addDiarization_spec [⟨0, 2, "SPK_00"⟩, ⟨2, 4, "SPK_01"⟩]
    { segments := [], language := "en", duration := 1 } (by decide)).2.1
      "backend boom").2

/-- C4 counterexample: the claim as stated says that when the diarization
backend raises, every segment carries `speaker_label = Unknown`.  In the
code the exception handler of `_add_diarization` only records the error in
`result['diarization']`; the segment dicts are left without any `'speaker'`
key.  Concretely, for a one-segment transcript the surviving segment's
speaker field is `none`, not `some "Unknown"`. -/
theorem addDiarization_raise_counterexample :
    ¬ (∀ s ∈ (addDiarization (.error "backend boom")
        { segments := [{ sid := 0, segStart := 0, segEnd := 1, text := "hi",
                         words := [] }],
          language := "en", duration := 1 }).segments,
        s.speaker = some "Unknown") := by
  intro h
  have hm : ({ sid := 0, segStart := 0, segEnd := 1, text := "hi",
               words := [] } : Segment)
      ∈ (addDiarization (.error "backend boom")
        { segments := [{ sid := 0, segStart := 0, segEnd := 1, text := "hi",
                         words := [] }],
          language := "en", duration := 1 }).segments := by
    simp [addDiarization]
  have := h _ hm
  simp at this

/-! ## `BatchOrchestrator._op_scan_files`

A scanned path is represented by its list of components
(`file_path.parts`).  The classification loop walks the components in
root-to-leaf order and, at the first component beginning with `F` or `R`,
appends the path to `front_files` or `rear_files` respectively and breaks;
a path with no such component lands in neither list.  The pattern matching
of `self.cwd.rglob(pattern)` is `pathlib` library behavior; for the
concrete pattern `F*/*.mp4` a path matches exactly when it has at least two
components, its second-to-last component begins with `F` and its last
component ends with `.mp4`. -/

/-- The inner loop of `_op_scan_files` over `file_path.parts`:
`some true` (front) at the first component beginning with `F`, `some false`
(rear) at the first component beginning with `R`, `none` when no component
begins with either.  `F` is tested before `R` on each component. -/
def firstFR : List String → Option Bool
  | [] => none
  | p :: rest =>
    if strBeginsWith p "F" then some true
    else if strBeginsWith p "R" then some false
    else firstFR rest

/-- The outer loop of `_op_scan_files`: distribute the matched files over
`front_files` and `rear_files` in scan order. -/
def scanClassify (allFiles : List (List String)) :
    List (List String) × List (List String) :=
  (allFiles.filter (fun p => firstFR p == some true),
   allFiles.filter (fun p => firstFR p == some false))

/-- `pathlib` semantics of `rglob("F*/*.mp4")` on a path given by its
components: at least two components, second-to-last beginning with `F`,
last ending with `.mp4`. -/
def matchesScanPat (parts : List String) : Bool :=
  match parts.reverse with
  | f :: d :: _ => strBeginsWith d "F" && strEndsWith f ".mp4"
  | _ => false

/-- `_op_scan_files` with pattern `F*/*.mp4`: glob-match the tree, then
classify. -/
def scanFiles (tree : List (List String)) :
    List (List String) × List (List String) :=
  scanClassify (tree.filter matchesScanPat)

/-- No component of the list begins with `F` or `R`. -/
def NoFR (l : List String) : Prop :=
  ∀ q ∈ l, strBeginsWith q "F" = false ∧ strBeginsWith q "R" = false

/-- Declarative front classification: some component begins with `F`, and
every component before it begins with neither `F` nor `R`. -/
def IsFrontPath (parts : List String) : Prop :=
  ∃ pre p suf, parts = pre ++ p :: suf ∧ NoFR pre ∧ strBeginsWith p "F" = true

/-- Declarative rear classification: some component fails the `F` test but
begins with `R`, and every component before it begins with neither `F` nor
`R`. -/
def IsRearPath (parts : List String) : Prop :=
  ∃ pre p suf, parts = pre ++ p :: suf ∧ NoFR pre ∧
    strBeginsWith p "F" = false ∧ strBeginsWith p "R" = true

theorem noFR_nil : NoFR [] :=
  fun x hx => absurd hx (List.not_mem_nil x)

theorem noFR_cons (q : String) (l : List String)
    (hF : ¬ strBeginsWith q "F" = true) (hR : ¬ strBeginsWith q "R" = true)
    (hl : NoFR l) : NoFR (q :: l) := by
  intro x hx
  rcases List.mem_cons.mp hx with rfl | hx'
  · exact ⟨Bool.eq_false_iff.mpr hF, Bool.eq_false_iff.mpr hR⟩
  · exact hl x hx'

theorem firstFR_cons_F (q : String) (rest : List String)
    (hF : strBeginsWith q "F" = true) :
    firstFR (q :: rest) = some true := by
  simp only [firstFR]
  rw [if_pos hF]

theorem firstFR_cons_R (q : String) (rest : List String)
    (hF : ¬ strBeginsWith q "F" = true) (hR : strBeginsWith q "R" = true) :
    firstFR (q :: rest) = some false := by
  simp only [firstFR]
  rw [if_neg hF, if_pos hR]

theorem firstFR_cons_other (q : String) (rest : List String)
    (hF : ¬ strBeginsWith q "F" = true) (hR : ¬ strBeginsWith q "R" = true) :
    firstFR (q :: rest) = firstFR rest := by
  simp only [firstFR]
  rw [if_neg hF, if_neg hR]

theorem firstFR_eq_true_iff (parts : List String) :
    firstFR parts = some true ↔ IsFrontPath parts := by
  induction parts with
  | nil =>
    constructor
    · intro h
      cases h
    · rintro ⟨pre, p, suf, heq, -, -⟩
      exact absurd (List.append_eq_nil.mp heq.symm).2 (List.cons_ne_nil p suf)
  | cons q rest ih =>
    by_cases hF : strBeginsWith q "F" = true
    · rw [firstFR_cons_F q rest hF]
      constructor
      · intro _
        exact ⟨[], q, rest, rfl, noFR_nil, hF⟩
      · intro _
        rfl
    · by_cases hR : strBeginsWith q "R" = true
      · rw [firstFR_cons_R q rest hF hR]
        constructor
        · intro h
          cases h
        · rintro ⟨pre, p, suf, heq, hno, hp⟩
          cases pre with
          | nil =>
            rw [List.nil_append] at heq
            injection heq with h1 h2
            subst h1
            exact absurd hp hF
          | cons q' pre' =>
            rw [List.cons_append] at heq
            injection heq with h1 h2
            subst h1
            have := (hno q (List.mem_cons_self q pre')).2
            rw [hR] at this
            cases this
      · rw [firstFR_cons_other q rest hF hR, ih]
        constructor
        · rintro ⟨pre, p, suf, heq, hno, hp⟩
          exact ⟨q :: pre, p, suf, by rw [heq, List.cons_append],
            noFR_cons q pre hF hR hno, hp⟩
        · rintro ⟨pre, p, suf, heq, hno, hp⟩
          cases pre with
          | nil =>
            rw [List.nil_append] at heq
            injection heq with h1 h2
            subst h1
            exact absurd hp hF
          | cons q' pre' =>
            rw [List.cons_append] at heq
            injection heq with h1 h2
            subst h1
            exact ⟨pre', p, suf, h2, fun x hx => hno x (List.mem_cons_of_mem q hx), hp⟩

theorem firstFR_eq_false_iff (parts : List String) :
    firstFR parts = some false ↔ IsRearPath parts := by
  induction parts with
  | nil =>
    constructor
    · intro h
      cases h
    · rintro ⟨pre, p, suf, heq, -, -⟩
      exact absurd (List.append_eq_nil.mp heq.symm).2 (List.cons_ne_nil p suf)
  | cons q rest ih =>
    by_cases hF : strBeginsWith q "F" = true
    · rw [firstFR_cons_F q rest hF]
      constructor
      · intro h
        cases h
      · rintro ⟨pre, p, suf, heq, hno, hpF, hpR⟩
        cases pre with
        | nil =>
          rw [List.nil_append] at heq
          injection heq with h1 h2
          subst h1
          rw [hF] at hpF
          cases hpF
        | cons q' pre' =>
          rw [List.cons_append] at heq
          injection heq with h1 h2
          subst h1
          have := (hno q (List.mem_cons_self q pre')).1
          rw [hF] at this
          cases this
    · by_cases hR : strBeginsWith q "R" = true
      · rw [firstFR_cons_R q rest hF hR]
        constructor
        · intro _
          exact ⟨[], q, rest, rfl, noFR_nil, Bool.eq_false_iff.mpr hF, hR⟩
        · intro _
          rfl
      · rw [firstFR_cons_other q rest hF hR, ih]
        constructor
        · rintro ⟨pre, p, suf, heq, hno, hpF, hpR⟩
          exact ⟨q :: pre, p, suf, by rw [heq, List.cons_append],
            noFR_cons q pre hF hR hno, hpF, hpR⟩
        · rintro ⟨pre, p, suf, heq, hno, hpF, hpR⟩
          cases pre with
          | nil =>
            rw [List.nil_append] at heq
            injection heq with h1 h2
            subst h1
            rw [hpR] at hR
            exact absurd rfl hR
          | cons q' pre' =>
            rw [List.cons_append] at heq
            injection heq with h1 h2
            subst h1
            exact ⟨pre', p, suf, h2, fun x hx => hno x (List.mem_cons_of_mem q hx),
              hpF, hpR⟩

/-- C3 (amended): `scan_files` classifies each file matched by the scan
pattern by the first of its path components — scanning root-to-leaf — that
begins with `F` or `R` (`F` tested first): such an `F`-component puts the
file in `front_files`, such an `R`-component puts it in
`rear_files_skipped`, and a file none of whose components begins with `F`
or `R` lands in neither list.  For the S3 tree `F001/a.mp4`, `F002/b.mp4`,
`R001/c.mp4` under pattern `F*/*.mp4`, the glob matches only the two
`F`-directory files, so `front_files = [F001/a.mp4, F002/b.mp4]` and
`rear_files_skipped = []` — not `[R001/c.mp4]`. -/
theorem scanFiles_spec (tree : List (List String)) :
    (∀ p, p ∈ (scanFiles tree).1 ↔
      p ∈ tree ∧ matchesScanPat p = true ∧ IsFrontPath p) ∧
    (∀ p, p ∈ (scanFiles tree).2 ↔
      p ∈ tree ∧ matchesScanPat p = true ∧ IsRearPath p) ∧
    scanFiles [["F001", "a.mp4"], ["F002", "b.mp4"], ["R001", "c.mp4"]]
      = ([["F001", "a.mp4"], ["F002", "b.mp4"]], []) := by
  refine ⟨?_, ?_, by decide⟩
  · intro p
    simp only [scanFiles, scanClassify, List.mem_filter, beq_iff_eq,
      firstFR_eq_true_iff, and_assoc]
  · intro p
    simp only [scanFiles, scanClassify, List.mem_filter, beq_iff_eq,
      firstFR_eq_false_iff, and_assoc]

/-- C3 counterexample: the claim predicts
`rear_files_skipped = [R001/c.mp4]` for the S3 scenario, but
`rglob("F*/*.mp4")` does not match `R001/c.mp4` at all, so the code
produces an empty `rear_files_skipped`. -/
theorem scanFiles_S3_counterexample :
    (scanFiles [["F001", "a.mp4"], ["F002", "b.mp4"], ["R001", "c.mp4"]]).2
      ≠ [["R001", "c.mp4"]] := by
  decide

/-! ## `BatchOrchestrator._generate_completion_report`

Verification check results are dicts; the report reads `v.get('pass',
False)`, so the `'pass'` value is modelled as an `Option Bool` (absent key
↦ `none`).  Only the fields the report computes from its inputs are
modelled; timestamps and evidence globbing are I/O. -/

/-- The fields of the completion report computed from the run. -/
structure CompletionReport where
  objectiveAchieved : Bool
  tasksCompleted : Nat
  tasksFailed : Nat
  deriving Repr, DecidableEq

/-- `_generate_completion_report`: `all_passed = all(v.get('pass', False)
for v in verification_results)`; `objective_achieved = all_passed and
self.manifest.jobs_failed == 0`. -/
def generateCompletionReport (executionSuccess : List Bool)
    (verificationResults : List (Option Bool)) (jobsFailed : Nat) :
    CompletionReport :=
  let allPassed := verificationResults.all (fun v => v.getD false)
  { objectiveAchieved := allPassed && (jobsFailed == 0)
    tasksCompleted := (executionSuccess.filter (fun b => b)).length
    tasksFailed := (executionSuccess.filter (fun b => !b)).length }

theorem getD_false_eq_true (v : Option Bool) :
    v.getD false = true ↔ v = some true := by
  cases v with
  | none => simp
  | some b => cases b <;> simp

/-- C5: the completion report's `objective_achieved` flag is true if and
only if every verifier check passes (its `pass` field is present and true)
and the manifest's `jobs_failed` count equals 0. -/
theorem generateCompletionReport_objective (executionSuccess : List Bool)
    (verificationResults : List (Option Bool)) (jobsFailed : Nat) :
    (generateCompletionReport executionSuccess verificationResults
        jobsFailed).objectiveAchieved = true ↔
      (∀ v ∈ verificationResults, v = some true) ∧ jobsFailed = 0 := by
  simp only [generateCompletionReport, Bool.and_eq_true, List.all_eq_true,
    beq_iff_eq, getD_false_eq_true]

/-! ## `OptimizedGPUTranscriber.check_audio_level`

The `ffmpeg -af volumedetect` subprocess is external; its outcome is an
explicit argument: a timeout (`subprocess.TimeoutExpired`), any other
exception, or an output whose `max_volume` / `mean_volume` lines parsed to
the given optional values (`none` = the line was missing or `float(...)`
raised). -/

/-- Outcome of the `ffmpeg volumedetect` probe subprocess. -/
inductive ProbeOutcome where
  | timeout
  | exc (msg : String)
  | output (maxVol meanVol : Option ℚ)
  deriving Repr, DecidableEq

/-- `self.silence_threshold_db = -60` (dB level below which is considered
silence). -/
def silenceThresholdDb : ℚ := -60

/-- `check_audio_level`: `'silent'` when both volumes parsed and
`max_vol < self.silence_threshold_db`, `'has_audio'` when both parsed
otherwise, `'unknown'` on a missing parse, a timeout or any exception.
The function is total: it never raises to its caller. -/
def checkAudioLevel (threshold : ℚ) (o : ProbeOutcome) :
    String × Option (ℚ × ℚ) :=
  match o with
  | .timeout => ("unknown", none)
  | .exc _ => ("unknown", none)
  | .output mx mn =>
    match mx, mn with
    | some m, some mv =>
        if m < threshold then ("silent", some (m, mv))
        else ("has_audio", some (m, mv))
    | some _, none => ("unknown", none)
    | none, _ => ("unknown", none)

/-- C7: the silence probe classifies an input as silent only when `max_db`
was successfully parsed and lies below the −60 dB default threshold (the
code additionally requires `mean_db` to have parsed); a probe timeout or a
parse failure of the loudness output yields status `unknown`; and the
probe never raises to its caller (the embedding is a total function, every
exception being caught to `unknown`). -/
theorem checkAudioLevel_spec :
    silenceThresholdDb = -60 ∧
    (∀ o, (checkAudioLevel silenceThresholdDb o).1 = "silent" ↔
      ∃ m mv, o = .output (some m) (some mv) ∧ m < silenceThresholdDb) ∧
    checkAudioLevel silenceThresholdDb .timeout = ("unknown", none) ∧
    (∀ msg, checkAudioLevel silenceThresholdDb (.exc msg) = ("unknown", none)) ∧
    (∀ mn, checkAudioLevel silenceThresholdDb (.output none mn) = ("unknown", none)) ∧
    (∀ m, checkAudioLevel silenceThresholdDb (.output (some m) none)
      = ("unknown", none)) := by
  refine ⟨rfl, ?_, rfl, fun _ => rfl, fun _ => rfl, fun _ => rfl⟩
  intro o
  cases o with
  | timeout =>
    constructor
    · intro h
      exact absurd h (by decide)
    · rintro ⟨m, mv, heq, -⟩
      cases heq
  | exc msg =>
    constructor
    · intro h
      exact absurd (show ("unknown" : String) = "silent" from h) (by decide)
    · rintro ⟨m, mv, heq, -⟩
      cases heq
  | output mx mn =>
    cases mx with
    | none =>
      constructor
      · intro h
        exact absurd (show ("unknown" : String) = "silent" from h) (by decide)
      · rintro ⟨m, mv, heq, -⟩
        injection heq with h1 h2
        cases h1
    | some m =>
      cases mn with
      | none =>
        constructor
        · intro h
          exact absurd (show ("unknown" : String) = "silent" from h) (by decide)
        · rintro ⟨m', mv', heq, -⟩
          injection heq with h1 h2
          cases h2
      | some mv =>
        by_cases hlt : m < silenceThresholdDb
        · constructor
          · intro _
            exact ⟨m, mv, rfl, hlt⟩
          · intro _
            simp [checkAudioLevel, hlt]
        · constructor
          · intro h
            rw [show checkAudioLevel silenceThresholdDb (.output (some m) (some mv))
                = ("has_audio", some (m, mv)) from by simp [checkAudioLevel, hlt]] at h
            exact absurd (show ("has_audio" : String) = "silent" from h) (by decide)
          · rintro ⟨m', mv', heq, hlt'⟩
            injection heq with h1 h2
            injection h1 with h1
            cases h1
            exact absurd hlt' hlt

/-! ## `HardwareOptimizer._calculate_recommendations`

Pure derivation of the recommended model, batch size, device, precision,
worker count, and parallel-file bound from the detected hardware.  VRAM and
RAM figures are rationals (gigabytes). -/

/-- The slice of the detected GPU inventory that
`_calculate_recommendations` reads. -/
structure GpuInfo where
  available : Bool
  count : Nat
  vramAvailGb : List ℚ
  deriving Repr, DecidableEq

/-- The recommendation fields computed by `_calculate_recommendations`. -/
structure Recommendations where
  batchSize : Nat
  model : String
  device : String
  workers : Nat
  fp16 : Bool
  maxParallelFiles : Nat
  deriving Repr, DecidableEq

/-- `min(gpu_info['gpu_vram_available_gb']) if ... else 0`. -/
def minVram : List ℚ → ℚ
  | [] => 0
  | x :: xs => xs.foldl min x

/-- `_calculate_recommendations(cpu_info, memory_info, gpu_info)`. -/
def calcRecommendations (gpu : GpuInfo) (ramAvailableGb : ℚ) (cpuCores : Nat) :
    Recommendations :=
  let recs : Recommendations :=
    { batchSize := 1, model := "base", device := "cpu", workers := 1,
      fp16 := false, maxParallelFiles := 1 }
  let recs :=
    if gpu.available && decide (0 < gpu.count) then
      let m := minVram gpu.vramAvailGb
      let recs := { recs with device := "cuda", fp16 := true }
      let recs :=
        if 10 ≤ m then { recs with model := "large-v3", batchSize := 16 }
        else if 6 ≤ m then { recs with model := "large-v2", batchSize := 8 }
        else if 4 ≤ m then { recs with model := "medium", batchSize := 4 }
        else if 2 ≤ m then { recs with model := "small", batchSize := 2 }
        else { recs with model := "base", batchSize := 1 }
      if 1 < gpu.count then { recs with maxParallelFiles := min gpu.count 4 }
      else recs
    else
      if 16 ≤ ramAvailableGb then { recs with model := "medium" }
      else if 8 ≤ ramAvailableGb then { recs with model := "small" }
      else { recs with model := "base" }
  let recs := { recs with workers := min cpuCores 8 }
  if recs.device != "cuda" then
    if 32 ≤ ramAvailableGb && decide (8 ≤ cpuCores) then
      { recs with maxParallelFiles := 4 }
    else if 16 ≤ ramAvailableGb && decide (4 ≤ cpuCores) then
      { recs with maxParallelFiles := 2 }
    else { recs with maxParallelFiles := 1 }
  else recs

/-- C8: when at least one GPU is detected, the derived profile selects
model and batch size from the minimum per-GPU VRAM according to the table
(≥10 GB → large-v3 / 16; ≥6 → large-v2 / 8; ≥4 → medium / 4; ≥2 → small /
2; below 2 → base / 1), with fp16 compute in every GPU case. -/
theorem calcRecommendations_gpu_table (gpu : GpuInfo) (ramAvailableGb : ℚ)
    (cpuCores : Nat) (hav : gpu.available = true) (hc : 0 < gpu.count) :
    (calcRecommendations gpu ramAvailableGb cpuCores).fp16 = true ∧
    (calcRecommendations gpu ramAvailableGb cpuCores).device = "cuda" ∧
    (10 ≤ minVram gpu.vramAvailGb →
      (calcRecommendations gpu ramAvailableGb cpuCores).model = "large-v3" ∧
      (calcRecommendations gpu ramAvailableGb cpuCores).batchSize = 16) ∧
    (6 ≤ minVram gpu.vramAvailGb → minVram gpu.vramAvailGb < 10 →
      (calcRecommendations gpu ramAvailableGb cpuCores).model = "large-v2" ∧
      (calcRecommendations gpu ramAvailableGb cpuCores).batchSize = 8) ∧
    (4 ≤ minVram gpu.vramAvailGb → minVram gpu.vramAvailGb < 6 →
      (calcRecommendations gpu ramAvailableGb cpuCores).model = "medium" ∧
      (calcRecommendations gpu ramAvailableGb cpuCores).batchSize = 4) ∧
    (2 ≤ minVram gpu.vramAvailGb → minVram gpu.vramAvailGb < 4 →
      (calcRecommendations gpu ramAvailableGb cpuCores).model = "small" ∧
      (calcRecommendations gpu ramAvailableGb cpuCores).batchSize = 2) ∧
    (minVram gpu.vramAvailGb < 2 →
      (calcRecommendations gpu ramAvailableGb cpuCores).model = "base" ∧
      (calcRecommendations gpu ramAvailableGb cpuCores).batchSize = 1) := by
  have hg : (gpu.available && decide (0 < gpu.count)) = true := by
    rw [hav, Bool.true_and, decide_eq_true_eq]
    exact hc
  simp only [calcRecommendations, hg, if_true]
  refine ⟨?_, ?_, ?_, ?_, ?_, ?_, ?_⟩
  · simp [apply_ite Recommendations.fp16, apply_ite Recommendations.device, ite_self]
  · simp [apply_ite Recommendations.device, ite_self]
  · intro h10
    constructor <;>
      simp [apply_ite Recommendations.model, apply_ite Recommendations.batchSize,
        apply_ite Recommendations.device, ite_self, h10]
  · intro h6 h10
    constructor <;>
      simp [apply_ite Recommendations.model, apply_ite Recommendations.batchSize,
        apply_ite Recommendations.device, ite_self, h6, not_le.mpr h10]
  · intro h4 h6
    constructor <;>
      simp [apply_ite Recommendations.model, apply_ite Recommendations.batchSize,
        apply_ite Recommendations.device, ite_self, h4, not_le.mpr h6,
        not_le.mpr (lt_of_lt_of_le h6 (by norm_num : (6 : ℚ) ≤ 10))]
  · intro h2 h4
    constructor <;>
      simp [apply_ite Recommendations.model, apply_ite Recommendations.batchSize,
        apply_ite Recommendations.device, ite_self, h2, not_le.mpr h4,
        not_le.mpr (lt_of_lt_of_le h4 (by norm_num : (4 : ℚ) ≤ 6)),
        not_le.mpr (lt_of_lt_of_le h4 (by norm_num : (4 : ℚ) ≤ 10))]
  · intro h2
    constructor <;>
      simp [apply_ite Recommendations.model, apply_ite Recommendations.batchSize,
        apply_ite Recommendations.device, ite_self, not_le.mpr h2,
        not_le.mpr (lt_of_lt_of_le h2 (by norm_num : (2 : ℚ) ≤ 4)),
        not_le.mpr (lt_of_lt_of_le h2 (by norm_num : (2 : ℚ) ≤ 6)),
        not_le.mpr (lt_of_lt_of_le h2 (by norm_num : (2 : ℚ) ≤ 10))]

theorem calcRecommendations_gpu_table_witness :
    (⟨true, 2, [12, 11]⟩ : GpuInfo).available = true ∧
    0 < (⟨true, 2, [12, 11]⟩ : GpuInfo).count ∧
    (calcRecommendations ⟨true, 2, [12, 11]⟩ 32 8).model = "large-v3" ∧
    (calcRecommendations ⟨true, 2, [12, 11]⟩ 32 8).batchSize = 16 ∧
    (calcRecommendations ⟨true, 2, [12, 11]⟩ 32 8).fp16 = true := by
  have h := calcRecommendations_gpu_table ⟨true, 2, [12, 11]⟩ 32 8 rfl (by decide)
  have hm : (10 : ℚ) ≤ minVram [12, 11] := by
    have : minVram [(12 : ℚ), 11] = 11 := by
      simp [minVram, min_def]
      norm_num
    rw [this]
    norm_num
  exact ⟨rfl, by decide, (h.2.2.1 hm).1, (h.2.2.1 hm).2, h.1⟩

/-! ## `BaseExporter._merge_segments` (`exporters.py`)

Exporter segments are the transcript dicts read by the SRT/VTT exporters:
`speaker_name` (optional), `start`, `end`, `text`, and an optional `words`
list.  `_merge_segments` combines a run of consecutive segments when the
next segment has the same `speaker_name` (both-absent counts as equal, as
with `dict.get`) and `segment['start'] - current['end'] <=
self.merge_threshold`; `words` lists are concatenated only when both dicts
have the key. -/

/-- A segment dict as consumed by the exporters. -/
structure ESeg where
  speakerName : Option String
  esStart : ℚ
  esEnd : ℚ
  text : String
  words : Option (List Word)
  deriving Repr, DecidableEq

/-- `config.get('export.merge_threshold_s', 0.5)`. -/
def mergeThresholdDefault : ℚ := 1 / 2

/-- The merge condition of `_merge_segments`:
`segment.get('speaker_name') == current.get('speaker_name') and
segment['start'] - current['end'] <= self.merge_threshold`. -/
def canMerge (threshold : ℚ) (cur seg : ESeg) : Bool :=
  (seg.speakerName == cur.speakerName) && decide (seg.esStart - cur.esEnd ≤ threshold)

/-- The merge action of `_merge_segments`: extend `current` to the new
end, concatenate text with a space, and concatenate `words` when both
sides carry them. -/
def combineSegs (cur seg : ESeg) : ESeg :=
  { cur with
    esEnd := seg.esEnd
    text := cur.text ++ " " ++ seg.text
    words :=
      match cur.words, seg.words with
      | some a, some b => some (a ++ b)
      | _, _ => cur.words }

/-- The loop of `_merge_segments` with `current` split off. -/
def mergeLoop (threshold : ℚ) (cur : ESeg) : List ESeg → List ESeg
  | [] => [cur]
  | s :: rest =>
    if canMerge threshold cur s then mergeLoop threshold (combineSegs cur s) rest
    else cur :: mergeLoop threshold s rest

/-- `BaseExporter._merge_segments` (`self.merge_consecutive` and
`self.merge_threshold` passed explicitly; the early return fires when
merging is disabled or the list is empty). -/
def mergeSegments (mergeConsecutive : Bool) (threshold : ℚ) (segs : List ESeg) :
    List ESeg :=
  if !mergeConsecutive then segs
  else
    match segs with
    | [] => []
    | s :: rest => mergeLoop threshold s rest

theorem canMerge_congr (threshold : ℚ) (c : ESeg) {x y : ESeg}
    (hs : x.speakerName = y.speakerName) (hst : x.esStart = y.esStart) :
    canMerge threshold c x = canMerge threshold c y := by
  simp [canMerge, hs, hst]

theorem mergeLoop_head (threshold : ℚ) (rest : List ESeg) (c : ESeg) :
    ∃ c' t, mergeLoop threshold c rest = c' :: t ∧
      c'.esStart = c.esStart ∧ c'.speakerName = c.speakerName := by
  induction rest generalizing c with
  | nil => exact ⟨c, [], rfl, rfl, rfl⟩
  | cons s rest ih =>
    by_cases h : canMerge threshold c s = true
    · obtain ⟨c', t, heq, h1, h2⟩ := ih (combineSegs c s)
      refine ⟨c', t, ?_, h1, h2⟩
      simp only [mergeLoop]
      rw [if_pos h, heq]
    · refine ⟨c, mergeLoop threshold s rest, ?_, rfl, rfl⟩
      simp only [mergeLoop]
      rw [if_neg h]

/-- Adjacent output segments of the merge never satisfy the merge
condition. -/
def SepSegs (threshold : ℚ) (l : List ESeg) : Prop :=
  List.Chain' (fun a b => canMerge threshold a b = false) l

theorem mergeLoop_sep (threshold : ℚ) (rest : List ESeg) (c : ESeg) :
    SepSegs threshold (mergeLoop threshold c rest) := by
  induction rest generalizing c with
  | nil => exact List.chain'_singleton c
  | cons s rest ih =>
    by_cases h : canMerge threshold c s = true
    · simp only [mergeLoop]
      rw [if_pos h]
      exact ih (combineSegs c s)
    · simp only [mergeLoop]
      rw [if_neg h]
      obtain ⟨c', t, heq, h1, h2⟩ := mergeLoop_head threshold rest s
      refine List.chain'_cons'.mpr ⟨?_, ih s⟩
      intro y hy
      rw [heq] at hy
      simp only [List.head?_cons, Option.mem_def, Option.some.injEq] at hy
      subst hy
      rw [canMerge_congr threshold c h2 h1]
      exact Bool.eq_false_iff.mpr h

theorem mergeLoop_of_sep (threshold : ℚ) (rest : List ESeg) (c : ESeg)
    (h : SepSegs threshold (c :: rest)) :
    mergeLoop threshold c rest = c :: rest := by
  induction rest generalizing c with
  | nil => rfl
  | cons s rest ih =>
    have h1 : canMerge threshold c s = false := (List.chain'_cons.mp h).1
    have h2 : SepSegs threshold (s :: rest) := (List.chain'_cons.mp h).2
    simp only [mergeLoop]
    rw [if_neg (by rw [h1]; exact Bool.false_ne_true), ih s h2]

/-- C9: the segment-merging policy of the exporters — combine two
consecutive segments when they carry the same speaker label and the gap
from the first's end to the second's start is at most the merge threshold
(default 0.5 s), concatenating text and words — is idempotent: running it
on an already-merged list returns that list unchanged, for every threshold
and every input. -/
theorem mergeSegments_idempotent :
    mergeThresholdDefault = 1 / 2 ∧
    ∀ (mergeConsecutive : Bool) (threshold : ℚ) (segs : List ESeg),
      mergeSegments mergeConsecutive threshold
          (mergeSegments mergeConsecutive threshold segs)
        = mergeSegments mergeConsecutive threshold segs := by
  refine ⟨rfl, ?_⟩
  intro mc threshold segs
  cases mc with
  | false => simp [mergeSegments]
  | true =>
    cases segs with
    | nil => rfl
    | cons s rest =>
      obtain ⟨c', t, heq, -, -⟩ := mergeLoop_head threshold rest s
      have hsep : SepSegs threshold (c' :: t) := by
        rw [← heq]
        exact mergeLoop_sep threshold rest s
      simp only [mergeSegments, Bool.not_true, Bool.false_eq_true, if_false, heq]
      exact (mergeLoop_of_sep threshold t c' hsep).trans rfl

/-! ## `BatchOrchestrator._op_generate_hashes`

Matched output files are pairs of a path relative to the working directory
(`transcript_file.relative_to(self.cwd)`, as recorded in the sidecar) and
their byte content.  SHA-256 (`hashlib`) is an opaque service, passed as a
`digest` function.  The `reports/hashes/` directory is a map from file
name to file content; `open(hash_path, 'w')` overwrites. -/

/-- A file matched by the `target_files` glob. -/
structure FileEntry where
  path : String
  content : String
  deriving Repr, DecidableEq

/-- Contents of the `reports/hashes/` directory: file name ↦ content. -/
def HashStore : Type := String → Option String

/-- The directory before any sidecar is written. -/
def emptyStore : HashStore := fun _ => none

/-- `open(path, 'w').write(content)`: create or overwrite. -/
def writeStoreFile (st : HashStore) (name content : String) : HashStore :=
  fun n => if n == name then some content else st n

/-- `hash_filename = transcript_file.stem + '.sha256'`. -/
def sidecarName (f : FileEntry) : String :=
  stem f.path ++ ".sha256"

/-- `f"{file_hash}  {transcript_file.relative_to(self.cwd)}\n"`. -/
def sidecarContent (digest : String → String) (f : FileEntry) : String :=
  digest f.content ++ "  " ++ f.path ++ "\x0a"

/-- `_op_generate_hashes`: hash every matched file in scan order and write
its sidecar into `reports/hashes/`. -/
def generateHashes (digest : String → String) (files : List FileEntry) :
    HashStore :=
  files.foldl
    (fun st f => writeStoreFile st (sidecarName f) (sidecarContent digest f))
    emptyStore

theorem foldl_writeStore_lookup (digest : String → String) (files : List FileEntry)
    (st : HashStore) (name : String) :
    (files.foldl
        (fun st f => writeStoreFile st (sidecarName f) (sidecarContent digest f))
        st) name
      = (match (files.filter (fun f => sidecarName f == name)).getLast? with
         | some g => some (sidecarContent digest g)
         | none => st name) := by
  induction files generalizing st with
  | nil => rfl
  | cons f fs ih =>
    rw [List.foldl_cons, ih]
    by_cases hp : (sidecarName f == name) = true
    · have hfil : (f :: fs).filter (fun g => sidecarName g == name)
          = f :: fs.filter (fun g => sidecarName g == name) := by
        simp [List.filter_cons, hp]
      rw [hfil]
      cases hg : (fs.filter (fun g => sidecarName g == name)).getLast? with
      | some g =>
        have hne : fs.filter (fun g => sidecarName g == name) ≠ [] := by
          intro hnil
          rw [hnil] at hg
          cases hg
        rw [List.getLast?_cons, hg]
        rfl
      | none =>
        have hnil : fs.filter (fun g => sidecarName g == name) = [] := by
          rwa [← List.getLast?_eq_none_iff]
        rw [hnil, List.getLast?_singleton]
        have hname : name = sidecarName f := (beq_iff_eq.mp hp).symm
        simp [writeStoreFile, hname]
    · have hpf : (sidecarName f == name) = false := Bool.eq_false_iff.mpr hp
      have hfil : (f :: fs).filter (fun g => sidecarName g == name)
          = fs.filter (fun g => sidecarName g == name) := by
        simp [List.filter_cons, hpf]
      rw [hfil]
      cases hg : (fs.filter (fun g => sidecarName g == name)).getLast? with
      | some g => rfl
      | none =>
        have hname : ¬ name = sidecarName f := fun hc => hp (beq_iff_eq.mpr hc.symm)
        simp [writeStoreFile, hname]

theorem generateHashes_lookup (digest : String → String) (files : List FileEntry)
    (name : String) :
    generateHashes digest files name
      = ((files.filter (fun f => sidecarName f == name)).getLast?).map
          (sidecarContent digest) := by
  rw [generateHashes, foldl_writeStore_lookup]
  cases (files.filter (fun f => sidecarName f == name)).getLast? with
  | some g => rfl
  | none => rfl

theorem string_append_right_cancel (a b c : String) (h : a ++ c = b ++ c) :
    a = b := by
  apply String.ext
  have hd : a.data ++ c.data = b.data ++ c.data := by
    have := congrArg String.data h
    simpa [String.data_append] using this
  exact List.append_cancel_right hd

/-- C6 (amended): `generate_hashes` writes, for each matched file, a
sidecar named `{stem}.sha256` into `reports/hashes/` containing
`'<hex>  <relative_path>'` of that file — but sidecars are keyed by stem
only, so the sidecar for a given stem holds the digest of the *last*
matched file with that stem.  A matched file whose stem is unique among
the matches therefore has its digest recorded; when several matched files
share a stem (as all files matched by the default pattern
`outputs/*/transcript.json` do — every one has stem `transcript`), the
earlier files' digests are overwritten and do not survive. -/
theorem generateHashes_spec (digest : String → String) (files : List FileEntry) :
    (∀ name, generateHashes digest files name
      = ((files.filter (fun f => sidecarName f == name)).getLast?).map
          (sidecarContent digest)) ∧
    (∀ f ∈ files, (∀ g ∈ files, stem g.path = stem f.path → g = f) →
      generateHashes digest files (sidecarName f)
        = some (digest f.content ++ "  " ++ f.path ++ "\x0a")) := by
  constructor
  · exact generateHashes_lookup digest files
  · intro f hf huniq
    rw [generateHashes_lookup]
    have hall : ∀ g ∈ files.filter (fun g => sidecarName g == sidecarName f),
        g = f := by
      intro g hg
      obtain ⟨hgmem, hgp⟩ := List.mem_filter.mp hg
      have hside : sidecarName g = sidecarName f := beq_iff_eq.mp hgp
      have hstem : stem g.path = stem f.path :=
        string_append_right_cancel _ _ _ hside
      exact huniq g hgmem hstem
    have hmem : f ∈ files.filter (fun g => sidecarName g == sidecarName f) :=
      List.mem_filter.mpr ⟨hf, beq_self_eq_true _⟩
    have hne : files.filter (fun g => sidecarName g == sidecarName f) ≠ [] := by
      intro hnil
      rw [hnil] at hmem
      cases hmem
    obtain ⟨g, hg⟩ := Option.isSome_iff_exists.mp
      (List.getLast?_isSome.mpr hne)
    have hgmem : g ∈ files.filter (fun g => sidecarName g == sidecarName f) := by
      obtain ⟨hne2, hgl⟩ := List.mem_getLast?_eq_getLast (show g ∈ _ from hg)
      rw [hgl]
      exact List.getLast_mem hne2
    have hgf : g = f := hall g hgmem
    rw [hg, hgf]
    rfl

theorem generateHashes_spec_witness :
    (⟨"outputs/A/one.json", "ca"⟩ : FileEntry) ∈
      ([⟨"outputs/A/one.json", "ca"⟩] : List FileEntry) ∧
    generateHashes id [⟨"outputs/A/one.json", "ca"⟩]
        (sidecarName ⟨"outputs/A/one.json", "ca"⟩)
      = some ("ca" ++ "  " ++ "outputs/A/one.json" ++ "\x0a") := by
  refine ⟨by decide, ?_⟩
  exact (generateHashes_spec id [⟨"outputs/A/one.json", "ca"⟩]).2
    ⟨"outputs/A/one.json", "ca"⟩ (by decide) (by decide)

/-- C6 counterexample: with the default pattern both
`outputs/A/transcript.json` and `outputs/B/transcript.json` have stem
`transcript`, so both sidecars are the single file
`reports/hashes/transcript.sha256`; after the run it holds the second
file's digest line, and the first file's digest is recorded nowhere — the
claim that each matching file's digest survives in its own sidecar is
false. -/
theorem generateHashes_counterexample :
    ¬ (∀ f ∈ ([⟨"outputs/A/transcript.json", "ca"⟩,
               ⟨"outputs/B/transcript.json", "cb"⟩] : List FileEntry),
        generateHashes id
            [⟨"outputs/A/transcript.json", "ca"⟩,
             ⟨"outputs/B/transcript.json", "cb"⟩]
            (sidecarName f)
          = some (id f.content ++ "  " ++ f.path ++ "\x0a")) := by
  decide

/-! ## `ContinuousGPUWorker.release_video` (`PeopleNet/worker.py`)

The relevant file-system state: the lock directory (`LOCK_DIR`), the lines
of the processed-list file (`PROCESSED_LIST`, append-only), and the staging
directory holding the input videos.  `os.remove` raises when the file is
missing; both `os.remove` calls in `release_video` sit in bare
`try/except: pass` blocks. -/

/-- The slice of the file system `release_video` touches. -/
structure WorkerFS where
  lockFiles : List String
  processedLines : List String
  stagingFiles : List String
  deriving Repr, DecidableEq

/-- `os.remove`: delete the named file, or raise if it does not exist. -/
def osRemove (files : List String) (name : String) : Except Unit (List String) :=
  if files.contains name then .ok (files.erase name) else .error ()

/-- `try: os.remove(...) except: pass` — the error is swallowed and the
directory is left unchanged. -/
def tryRemove (files : List String) (name : String) : List String :=
  match osRemove files name with
  | .ok fs => fs
  | .error _ => files

/-- `ContinuousGPUWorker.release_video(video_path)`: delete the lock file
(errors swallowed), append the video's basename to the processed list, and
delete the video itself from staging (errors swallowed). -/
def releaseVideo (st : WorkerFS) (videoPath : String) : WorkerFS :=
  let videoName := basename videoPath
  let st := { st with lockFiles := tryRemove st.lockFiles (videoName ++ ".lock") }
  let st := { st with processedLines := st.processedLines ++ [videoName] }
  { st with stagingFiles := tryRemove st.stagingFiles videoPath }

theorem tryRemove_eq_erase (files : List String) (name : String) :
    tryRemove files name = files.erase name := by
  by_cases hm : name ∈ files
  · simp [tryRemove, osRemove, hm]
  · simp [tryRemove, osRemove, hm, List.erase_of_not_mem hm]

/-- C10: for every claimed input, `release_video` does more than the
documented lock deletion and processed-list append: it also deletes the
input video file itself from the staging directory — an effect with no
opt-out parameter in its signature — and errors in deleting either the
lock or the video are silently swallowed (the bare excepts make the
function total: a missing lock or missing video leaves that directory
unchanged while the rest of the release still happens). -/
theorem releaseVideo_spec (st : WorkerFS) (videoPath : String) :
    (releaseVideo st videoPath).lockFiles
        = st.lockFiles.erase (basename videoPath ++ ".lock") ∧
    (releaseVideo st videoPath).processedLines
        = st.processedLines ++ [basename videoPath] ∧
    (releaseVideo st videoPath).stagingFiles
        = st.stagingFiles.erase videoPath ∧
    (st.stagingFiles.Nodup → videoPath ∉ (releaseVideo st videoPath).stagingFiles) ∧
    (videoPath ∉ st.stagingFiles →
      (releaseVideo st videoPath).stagingFiles = st.stagingFiles) := by
  refine ⟨?_, rfl, ?_, ?_, ?_⟩
  · simp [releaseVideo, tryRemove_eq_erase]
  · simp [releaseVideo, tryRemove_eq_erase]
  · intro hnd hc
    have : videoPath ∈ st.stagingFiles.erase videoPath := by
      simpa [releaseVideo, tryRemove_eq_erase] using hc
    exact absurd ((hnd.mem_erase_iff).mp this).1 (by simp)
  · intro hnm
    simp [releaseVideo, tryRemove_eq_erase, List.erase_of_not_mem hnm]

theorem releaseVideo_spec_witness :
    (["/workspace/Staging/B/v1.MP4"] : List String).Nodup ∧
    "/workspace/Staging/B/v1.MP4" ∉
      (releaseVideo ⟨["v1.MP4.lock"], [], ["/workspace/Staging/B/v1.MP4"]⟩
        "/workspace/Staging/B/v1.MP4").stagingFiles := by
  refine ⟨by decide, ?_⟩
  exact (releaseVideo_spec ⟨["v1.MP4.lock"], [], ["/workspace/Staging/B/v1.MP4"]⟩
    "/workspace/Staging/B/v1.MP4").2.2.2.1 (by decide)

end Dashcam
